import Mathlib

/-!
Verification of the cosine-similarity repository.

Part 1 embeds the standalone cosine similarity function from the file
cosine-similarity.py as a function on lists of real numbers.

Part 2 embeds the live dataset ranking and deduplication pipeline from the
file cosine-vector.py.  The external sentence-embedding model and the
similarity primitive of that library are collaborators outside the
repository, so they are passed in as function parameters; a failing
embedding call (a thrown exception in the source) is modelled by the
parameter returning none.  Scores produced by the external library are
modelled as rationals so that runs evaluate.
-/

namespace CosSim

/-- Python: dot_product = sum(x * y for x, y in zip(v1, v2)).
zip stops at the shorter list, exactly as Python zip does. -/
noncomputable def dot_product (v1 v2 : List ℝ) : ℝ :=
  ((v1.zip v2).map (fun p => p.1 * p.2)).sum

/-- Python: math.sqrt(sum(x**2 for x in v)). -/
noncomputable def magnitude (v : List ℝ) : ℝ :=
  Real.sqrt ((v.map (fun x => x ^ 2)).sum)

/-- Embedding of cosine_similarity from cosine-similarity.py: if either
magnitude is zero the function returns 0, otherwise the normalized dot
product. -/
noncomputable def cosine_similarity (v1 v2 : List ℝ) : ℝ :=
  if magnitude v1 = 0 ∨ magnitude v2 = 0 then 0
  else dot_product v1 v2 / (magnitude v1 * magnitude v2)

/-- The sum of squares of a list of reals is nonnegative. -/
lemma sumsq_nonneg (v : List ℝ) : 0 ≤ (v.map (fun x => x ^ 2)).sum :=
  List.sum_nonneg (by
    intro x hx
    obtain ⟨y, _, rfl⟩ := List.mem_map.mp hx
    exact sq_nonneg y)

lemma magnitude_eq_zero_iff (v : List ℝ) :
    magnitude v = 0 ↔ (v.map (fun x => x ^ 2)).sum = 0 := by
  unfold magnitude
  rw [Real.sqrt_eq_zero (sumsq_nonneg v)]

lemma sq_magnitude (v : List ℝ) :
    magnitude v * magnitude v = (v.map (fun x => x ^ 2)).sum := by
  unfold magnitude
  exact Real.mul_self_sqrt (sumsq_nonneg v)

lemma magnitude_nonneg (v : List ℝ) : 0 ≤ magnitude v :=
  Real.sqrt_nonneg _

/-- A vector with a nonzero entry has a positive sum of squares. -/
lemma sumsq_pos (v : List ℝ) (h : ∃ x ∈ v, x ≠ 0) :
    0 < (v.map (fun x => x ^ 2)).sum := by
  obtain ⟨x, hxv, hx⟩ := h
  have hmem : x ^ 2 ∈ v.map (fun x => x ^ 2) := List.mem_map_of_mem _ hxv
  have hle : x ^ 2 ≤ (v.map (fun x => x ^ 2)).sum :=
    List.single_le_sum (fun a ha => by
      obtain ⟨y, _, rfl⟩ := List.mem_map.mp ha
      exact sq_nonneg y) _ hmem
  exact lt_of_lt_of_le (by positivity) hle

lemma magnitude_pos (v : List ℝ) (h : ∃ x ∈ v, x ≠ 0) : 0 < magnitude v :=
  Real.sqrt_pos.mpr (sumsq_pos v h)

/-- The dot product of a vector with itself is its sum of squares. -/
lemma dot_product_self (v : List ℝ) :
    dot_product v v = (v.map (fun x => x ^ 2)).sum := by
  unfold dot_product
  induction v with
  | nil => simp
  | cons a as ih => simp [List.zip_cons_cons, ih, sq]

/-- The zip-based dot product as an indexed sum over the shorter length. -/
lemma dot_product_eq_sum_range (a : List ℝ) :
    ∀ b : List ℝ, dot_product a b =
      ∑ i ∈ Finset.range (min a.length b.length), a.getD i 0 * b.getD i 0 := by
  unfold dot_product
  induction a with
  | nil => intro b; simp
  | cons x xs ih =>
    intro b
    cases b with
    | nil => simp
    | cons y ys =>
      simp only [List.zip_cons_cons, List.map_cons, List.sum_cons, List.length_cons,
        Nat.succ_min_succ, Finset.sum_range_succ', List.getD_cons_succ, List.getD_cons_zero]
      rw [ih ys]
      ring

/-- The sum of squares as an indexed sum over the whole vector. -/
lemma sumsq_eq_sum_range (v : List ℝ) :
    (v.map (fun x => x ^ 2)).sum = ∑ i ∈ Finset.range v.length, v.getD i 0 ^ 2 := by
  induction v with
  | nil => simp
  | cons x xs ih =>
    simp only [List.map_cons, List.sum_cons, List.length_cons, Finset.sum_range_succ',
      List.getD_cons_succ, List.getD_cons_zero, ih]
    ring

/-- Cauchy-Schwarz for the zip-based dot product against the full magnitudes. -/
lemma abs_dot_product_le (a b : List ℝ) :
    |dot_product a b| ≤ magnitude a * magnitude b := by
  have hA : (0:ℝ) ≤ ∑ i ∈ Finset.range a.length, a.getD i 0 ^ 2 :=
    Finset.sum_nonneg (fun i _ => sq_nonneg _)
  have hsq : dot_product a b ^ 2 ≤
      (∑ i ∈ Finset.range a.length, a.getD i 0 ^ 2) *
      (∑ i ∈ Finset.range b.length, b.getD i 0 ^ 2) := by
    rw [dot_product_eq_sum_range]
    have hcs := Finset.sum_mul_sq_le_sq_mul_sq (Finset.range (min a.length b.length))
      (fun i => a.getD i 0) (fun i => b.getD i 0)
    refine le_trans hcs (mul_le_mul ?_ ?_ ?_ ?_)
    · exact Finset.sum_le_sum_of_subset_of_nonneg
        (Finset.range_subset.mpr (Nat.min_le_left _ _)) (fun i _ _ => sq_nonneg _)
    · exact Finset.sum_le_sum_of_subset_of_nonneg
        (Finset.range_subset.mpr (Nat.min_le_right _ _)) (fun i _ _ => sq_nonneg _)
    · exact Finset.sum_nonneg (fun i _ => sq_nonneg _)
    · exact hA
  calc |dot_product a b| = Real.sqrt (dot_product a b ^ 2) :=
        (Real.sqrt_sq_eq_abs _).symm
    _ ≤ Real.sqrt ((∑ i ∈ Finset.range a.length, a.getD i 0 ^ 2) *
          (∑ i ∈ Finset.range b.length, b.getD i 0 ^ 2)) := Real.sqrt_le_sqrt hsq
    _ = magnitude a * magnitude b := by
        rw [Real.sqrt_mul hA]
        unfold magnitude
        rw [sumsq_eq_sum_range a, sumsq_eq_sum_range b]

/-- C2 counterexample: for a=[3,45,7,2] and b=[2,54,13,15] the dot product
computed by the code is 2557, not 2649 as the claim states. -/
theorem claim_C2_counterexample :
    dot_product [3, 45, 7, 2] [2, 54, 13, 15] = 2557 ∧ (2557 : ℝ) ≠ 2649 := by
  constructor
  · simp [dot_product, List.zip_cons_cons]
    norm_num
  · norm_num

/-- C2 amended: for a=[3,45,7,2] and b=[2,54,13,15] the dot product is 2557,
the magnitude of a is between 45.68 and 45.69 (about 45.68, not 45.82), the
magnitude of b is between 57.56 and 57.57 (about 57.57, not 58.12), and the
cosine similarity is between 0.9722 and 0.9723 (about 0.9723, not 0.9757). -/
theorem claim_C2_amended :
    dot_product [3, 45, 7, 2] [2, 54, 13, 15] = 2557 ∧
    (45.68 < magnitude [3, 45, 7, 2] ∧ magnitude [3, 45, 7, 2] < 45.69) ∧
    (57.56 < magnitude [2, 54, 13, 15] ∧ magnitude [2, 54, 13, 15] < 57.57) ∧
    (0.9722 < cosine_similarity [3, 45, 7, 2] [2, 54, 13, 15] ∧
      cosine_similarity [3, 45, 7, 2] [2, 54, 13, 15] < 0.9723) := by
  have hdot : dot_product [3, 45, 7, 2] [2, 54, 13, 15] = 2557 := by
    simp [dot_product, List.zip_cons_cons]
    norm_num
  have hma : magnitude [3, 45, 7, 2] = Real.sqrt 2087 := by
    simp [magnitude]
    norm_num
  have hmb : magnitude [2, 54, 13, 15] = Real.sqrt 3314 := by
    simp [magnitude]
    norm_num
  have hA1 : (45.68 : ℝ) < Real.sqrt 2087 := by
    rw [Real.lt_sqrt (by norm_num)]
    norm_num
  have hA2 : Real.sqrt 2087 < 45.69 := by
    rw [Real.sqrt_lt' (by norm_num)]
    norm_num
  have hB1 : (57.56 : ℝ) < Real.sqrt 3314 := by
    rw [Real.lt_sqrt (by norm_num)]
    norm_num
  have hB2 : Real.sqrt 3314 < 57.57 := by
    rw [Real.sqrt_lt' (by norm_num)]
    norm_num
  have hprod : magnitude [3, 45, 7, 2] * magnitude [2, 54, 13, 15] =
      Real.sqrt 6916318 := by
    rw [hma, hmb, ← Real.sqrt_mul (by norm_num)]
    norm_num
  have hS1 : (2629.88 : ℝ) < Real.sqrt 6916318 := by
    rw [Real.lt_sqrt (by norm_num)]
    norm_num
  have hS2 : Real.sqrt 6916318 < 2629.9 := by
    rw [Real.sqrt_lt' (by norm_num)]
    norm_num
  have hSpos : (0 : ℝ) < Real.sqrt 6916318 := by positivity
  have hcos : cosine_similarity [3, 45, 7, 2] [2, 54, 13, 15] =
      2557 / Real.sqrt 6916318 := by
    unfold cosine_similarity
    rw [if_neg, hdot, hprod]
    push_neg
    constructor
    · rw [hma]
      positivity
    · rw [hmb]
      positivity
  refine ⟨hdot, ⟨by rw [hma]; exact hA1, by rw [hma]; exact hA2⟩,
    ⟨by rw [hmb]; exact hB1, by rw [hmb]; exact hB2⟩, ?_, ?_⟩
  · rw [hcos, lt_div_iff₀ hSpos]
    nlinarith
  · rw [hcos, div_lt_iff₀ hSpos]
    nlinarith

/-- C3: when either magnitude is exactly zero the function returns 0 instead
of failing with a division error, and in particular the cosine similarity of
a zero vector with any vector (on either side) is 0. -/
theorem claim_C3_zero_magnitude (v1 v2 v : List ℝ) (n : ℕ)
    (h : magnitude v1 = 0 ∨ magnitude v2 = 0) :
    cosine_similarity v1 v2 = 0 ∧
    cosine_similarity (List.replicate n 0) v = 0 ∧
    cosine_similarity v (List.replicate n 0) = 0 := by
  have hz : magnitude (List.replicate n (0:ℝ)) = 0 := by
    unfold magnitude
    simp
  refine ⟨?_, ?_, ?_⟩
  · unfold cosine_similarity
    rw [if_pos h]
  · unfold cosine_similarity
    rw [if_pos (Or.inl hz)]
  · unfold cosine_similarity
    rw [if_pos (Or.inr hz)]

/-- C3 witness: concrete instance at v1=[0], v2=[1], v=[1,2], n=2. -/
theorem claim_C3_zero_magnitude_witness :
    (magnitude [0] = 0 ∨ magnitude [1] = 0) ∧
    (cosine_similarity [0] [1] = 0 ∧
      cosine_similarity (List.replicate 2 0) [1, 2] = 0 ∧
      cosine_similarity [1, 2] (List.replicate 2 0) = 0) :=
  ⟨Or.inl (by simp [magnitude]), claim_C3_zero_magnitude [0] [1] [1, 2] 2
    (Or.inl (by simp [magnitude]))⟩

/-- C4: for vectors of possibly different lengths no error is raised (the
function is total); the dot product ranges over positions up to the shorter
length only, each magnitude ranges over all entries of its own vector, and
when both magnitudes are nonzero the result is dot / (magA * magB). -/
theorem claim_C4_length_mismatch (a b : List ℝ)
    (h1 : magnitude a ≠ 0) (h2 : magnitude b ≠ 0) :
    cosine_similarity a b =
      (∑ i ∈ Finset.range (min a.length b.length), a.getD i 0 * b.getD i 0) /
        (Real.sqrt (∑ i ∈ Finset.range a.length, a.getD i 0 ^ 2) *
          Real.sqrt (∑ i ∈ Finset.range b.length, b.getD i 0 ^ 2)) := by
  unfold cosine_similarity
  rw [if_neg (by push_neg; exact ⟨h1, h2⟩)]
  rw [dot_product_eq_sum_range]
  unfold magnitude
  rw [sumsq_eq_sum_range a, sumsq_eq_sum_range b]

/-- C4 witness: concrete instance with mismatched lengths a=[3], b=[4,5]. -/
theorem claim_C4_length_mismatch_witness :
    (magnitude [3] ≠ 0 ∧ magnitude [(4:ℝ), 5] ≠ 0) ∧
    cosine_similarity [3] [4, 5] =
      (∑ i ∈ Finset.range (min (List.length [(3:ℝ)]) (List.length [(4:ℝ), 5])),
          (List.getD [(3:ℝ)] i 0) * (List.getD [(4:ℝ), 5] i 0)) /
        (Real.sqrt (∑ i ∈ Finset.range (List.length [(3:ℝ)]), (List.getD [(3:ℝ)] i 0) ^ 2) *
          Real.sqrt (∑ i ∈ Finset.range (List.length [(4:ℝ), 5]), (List.getD [(4:ℝ), 5] i 0) ^ 2)) := by
  have ha : magnitude [(3:ℝ)] ≠ 0 :=
    ne_of_gt (magnitude_pos [3] ⟨3, by norm_num⟩)
  have hb : magnitude [(4:ℝ), 5] ≠ 0 :=
    ne_of_gt (magnitude_pos [4, 5] ⟨4, by norm_num⟩)
  exact ⟨⟨ha, hb⟩, claim_C4_length_mismatch [3] [4, 5] ha hb⟩

/-- C5: for non-zero input vectors (of any lengths, including mismatched
lengths) the returned score lies in the closed range -1 to 1.  The embedding
is a pure function of its arguments, so the inputs are never mutated. -/
theorem claim_C5_score_range (v1 v2 : List ℝ)
    (h1 : ∃ x ∈ v1, x ≠ 0) (h2 : ∃ x ∈ v2, x ≠ 0) :
    -1 ≤ cosine_similarity v1 v2 ∧ cosine_similarity v1 v2 ≤ 1 := by
  have hm1 : 0 < magnitude v1 := magnitude_pos v1 h1
  have hm2 : 0 < magnitude v2 := magnitude_pos v2 h2
  have hmm : 0 < magnitude v1 * magnitude v2 := mul_pos hm1 hm2
  have habs : |cosine_similarity v1 v2| ≤ 1 := by
    unfold cosine_similarity
    rw [if_neg (by push_neg; exact ⟨ne_of_gt hm1, ne_of_gt hm2⟩)]
    rw [abs_div, abs_of_pos hmm, div_le_one hmm]
    exact abs_dot_product_le v1 v2
  exact ⟨neg_le_of_abs_le habs, le_of_abs_le habs⟩

/-- C5 witness: concrete instance at v1=[1,2], v2=[3] (mismatched lengths). -/
theorem claim_C5_score_range_witness :
    ((∃ x ∈ [(1:ℝ), 2], x ≠ 0) ∧ (∃ x ∈ [(3:ℝ)], x ≠ 0)) ∧
    (-1 ≤ cosine_similarity [1, 2] [3] ∧ cosine_similarity [1, 2] [3] ≤ 1) :=
  ⟨⟨⟨1, by norm_num⟩, ⟨3, by norm_num⟩⟩,
    claim_C5_score_range [1, 2] [3] ⟨1, by norm_num⟩ ⟨3, by norm_num⟩⟩

/-- C9: the cosine similarity of any non-zero vector with itself is 1. -/
theorem claim_C9_self_similarity (v : List ℝ) (h : ∃ x ∈ v, x ≠ 0) :
    cosine_similarity v v = 1 := by
  have hpos : 0 < (v.map (fun x => x ^ 2)).sum := sumsq_pos v h
  have hm : magnitude v ≠ 0 := ne_of_gt (magnitude_pos v h)
  unfold cosine_similarity
  rw [if_neg (by push_neg; exact ⟨hm, hm⟩)]
  rw [dot_product_self, sq_magnitude]
  exact div_self (ne_of_gt hpos)

/-- C9 witness: concrete instance at v=[1,2]. -/
theorem claim_C9_self_similarity_witness :
    (∃ x ∈ [(1:ℝ), 2], x ≠ 0) ∧ cosine_similarity [1, 2] [1, 2] = 1 :=
  ⟨⟨1, by norm_num⟩, claim_C9_self_similarity [1, 2] ⟨1, by norm_num⟩⟩

end CosSim

namespace CosVec

/-!
Embedding of the live part of cosine-vector.py.

Python strings are modelled as lists of characters so that all text
operations are structural and runs of the pipeline evaluate.  The helper
functions pyStrip, pyStartsWith, pyEndsWith, pyDrop and pyTake mirror
Python str.strip, str.startswith, str.endswith and slicing; the regex
matches of the source, re.match on a pattern of the shape word-colon
whitespace capture, are equivalent to a startswith test followed by
dropping the literal prefix and stripping, which is how they are embedded.

The sentence-transformer model and its cosine primitive are external
collaborators: model.encode is a parameter enc returning none when the
call raises (the except branch of the source), and util.cos_sim is a
parameter sim producing the score of an embedding against the fixed query
embedding qe.  Scores are rationals so that concrete runs evaluate.
-/

/-- A Python string as its list of characters. -/
abbrev Str := List Char

/-- The characters of a string literal. -/
def str (s : String) : Str := s.data

/-- Whitespace as stripped by Python str.strip. -/
def isSpace (c : Char) : Bool := c == ' ' || c == '\t' || c == '\n' || c == '\r'

/-- Python str.strip: remove whitespace from both ends. -/
def pyStrip (s : Str) : Str :=
  ((s.dropWhile isSpace).reverse.dropWhile isSpace).reverse

/-- Python str.startswith. -/
def pyStartsWith : Str → Str → Bool
  | _, [] => true
  | [], _ :: _ => false
  | c :: s, p :: ps => c == p && pyStartsWith s ps

/-- Python str.endswith. -/
def pyEndsWith (s p : Str) : Bool := pyStartsWith s.reverse p.reverse

/-- Python truthiness of an optional string: None and the empty string are
falsy, any other string is truthy. -/
def pyTruthy : Option Str → Bool
  | none => false
  | some s => !s.isEmpty

/-- One text file of a dataset folder: its name and its lines (each line
already without its trailing newline, as the for-line-in-f loop with
strip sees them). -/
structure DataFile where
  name : Str
  lines : List Str
deriving DecidableEq

/-- The unique key of the source: Topic text plus a separator plus the
Question text. -/
def mkKey (t q : Str) : Str := str "Topic: " ++ t ++ str " | Question: " ++ q

/-- The duplicate warning message built by the source: the file name, the
topic and the first 30 characters of the question. -/
def mkWarning (file t q : Str) : Str :=
  str "File: " ++ file ++ str " | Topic: \x27" ++ t ++
    str "\x27 | Question: \x27" ++ q.take 30 ++ str "...\x27"

/-- The line scan of extract_key_data_from_file.  Each line is stripped;
the first line starting with the Topic label sets the topic, the first
line starting with the Question label sets the question (both guarded by
an is-None test), and as soon as both are truthy the function returns the
pair together with the unique key.  Falling off the end returns a triple
of None, so a run in which a field stayed missing or empty yields no
data at all. -/
def extractLoop : List Str → Option Str → Option Str → Option Str × Option Str × Option Str
  | [], _, _ => (none, none, none)
  | line :: rest, t, q =>
    let l := pyStrip line
    let t1 := if pyStartsWith l (str "Topic:") && t.isNone
      then some (pyStrip (l.drop 6)) else t
    let q1 := if pyStartsWith l (str "Question:") && q.isNone
      then some (pyStrip (l.drop 9)) else q
    if pyTruthy t1 && pyTruthy q1 then
      (t1, q1, some (mkKey (t1.getD []) (q1.getD [])))
    else
      extractLoop rest t1 q1

/-- Embedding of extract_key_data_from_file of cosine-vector.py. -/
def extract_key_data_from_file (lines : List Str) :
    Option Str × Option Str × Option Str :=
  extractLoop lines none none

/-- One entry of the similarities list of the source: the tuple of
question text, file name, score, folder name and topic text. -/
structure ScoredItem where
  question : Str
  file : Str
  score : ℚ
  folder : Str
  topic : Str
deriving DecidableEq

/-- The per-file loop body of process_dataset_folder: extract the fields,
skip the file unless both are truthy, record or flag the duplicate key
(before the embedding call), then attempt the embedding call; on failure
(enc returning none, the except branch) the candidate is skipped for
scoring only.  Returns the similarities, the warning list and the final
seen-key set. -/
def processFiles (qe : List ℚ) (sim : List ℚ → List ℚ → ℚ)
    (enc : Str → Option (List ℚ)) (folder_name : Str) :
    List DataFile → List Str → List ScoredItem × List Str × List Str
  | [], seen => ([], [], seen)
  | f :: rest, seen =>
    let e := extract_key_data_from_file f.lines
    if pyTruthy e.1 && pyTruthy e.2.1 then
      let tt := e.1.getD []
      let qt := e.2.1.getD []
      let kk := e.2.2.getD []
      let warns : List Str := if kk ∈ seen then [mkWarning f.name tt qt] else []
      let seen1 : List Str := if kk ∈ seen then seen else kk :: seen
      let sims : List ScoredItem :=
        ((enc qt).map (fun emb => ⟨qt, f.name, sim qe emb, folder_name, tt⟩)).toList
      let r := processFiles qe sim enc folder_name rest seen1
      (sims ++ r.1, warns ++ r.2.1, r.2.2)
    else
      processFiles qe sim enc folder_name rest seen

/-- Embedding of process_dataset_folder of cosine-vector.py: keep the
files ending in .txt and run the per-file loop; the set of seen keys is
the caller-owned unique_questions argument. -/
def process_dataset_folder (qe : List ℚ) (sim : List ℚ → List ℚ → ℚ)
    (enc : Str → Option (List ℚ)) (folder_name : Str) (files : List DataFile)
    (unique_questions : List Str) : List ScoredItem × List Str × List Str :=
  let dataset_files := files.filter (fun f => pyEndsWith f.name (str ".txt"))
  processFiles qe sim enc folder_name dataset_files unique_questions

/-- The main loop over DATASET_FOLDER_NAMES: thread the shared
unique_questions set through every folder, concatenate the similarity
results, and record the warnings of each folder under its name when there
are any (the all_duplicate_warnings dictionary). -/
def runFolders (qe : List ℚ) (sim : List ℚ → List ℚ → ℚ)
    (enc : Str → Option (List ℚ)) :
    List (Str × List DataFile) → List Str →
      List ScoredItem × List (Str × List Str) × List Str
  | [], seen => ([], [], seen)
  | g :: rest, seen =>
    let r := process_dataset_folder qe sim enc g.1 g.2 seen
    let rr := runFolders qe sim enc rest r.2.2
    (r.1 ++ rr.1, (if r.2.1.isEmpty then [] else [(g.1, r.2.1)]) ++ rr.2.1, rr.2.2)

/-- The comparison used by sorted with key score and reverse true: a
stable sort that orders higher scores first. -/
def scoreLE (a b : ScoredItem) : Bool := decide (b.score ≤ a.score)

/-- Python sorted(all_similarities, key score, reverse=True): a stable
descending sort by score. -/
def sortDesc (l : List ScoredItem) : List ScoredItem := l.mergeSort scoreLE

/-- Embedding of the top_results line of the source: sort all scored
candidates by score descending (stable) and keep the first 10. -/
def top_results (l : List ScoredItem) : List ScoredItem := (sortDesc l).take 10

/-- The whole run: process every folder starting from an empty seen-key
set, then return the truncated ranked list together with the full
group-to-duplicates mapping. -/
def runPipeline (qe : List ℚ) (sim : List ℚ → List ℚ → ℚ)
    (enc : Str → Option (List ℚ)) (folders : List (Str × List DataFile)) :
    List ScoredItem × List (Str × List Str) :=
  let r := runFolders qe sim enc folders []
  (top_results r.1, r.2.1)

/-!
Candidate records.  A file that survives the truthiness test of the loop
is reduced to a candidate record carrying its group label, file name,
topic, question and deduplication key; the pipeline of the source is then
a single left-to-right pass over the flattened candidate sequence.  The
bridge lemmas below prove that the file-level functions above compute
exactly this pass, which is the shape in which the spec2 pipeline claims
are stated.
-/

/-- One candidate record, as described by the spec for the pipeline. -/
structure Cand where
  folder : Str
  file : Str
  topic : Str
  question : Str
  key : Str
deriving DecidableEq

/-- The candidate record of a file, when its extraction succeeds with two
truthy fields. -/
def candOfFile (folder_name : Str) (f : DataFile) : Option Cand :=
  let e := extract_key_data_from_file f.lines
  if pyTruthy e.1 && pyTruthy e.2.1 then
    some ⟨folder_name, f.name, e.1.getD [], e.2.1.getD [], e.2.2.getD []⟩
  else none

/-- The candidate records of one folder, in processing order. -/
def folderCands (folder_name : Str) (files : List DataFile) : List Cand :=
  (files.filter (fun f => pyEndsWith f.name (str ".txt"))).filterMap
    (candOfFile folder_name)

/-- The flattened candidate sequence of a whole run. -/
def flatCands (folders : List (Str × List DataFile)) : List Cand :=
  folders.flatMap (fun g => folderCands g.1 g.2)

/-- The scored item a candidate contributes when its embedding is emb. -/
def scoreItem (qe : List ℚ) (sim : List ℚ → List ℚ → ℚ) (c : Cand)
    (emb : List ℚ) : ScoredItem :=
  ⟨c.question, c.file, sim qe emb, c.folder, c.topic⟩

/-- The duplicate warning text a candidate produces when flagged. -/
def candWarning (c : Cand) : Str := mkWarning c.file c.topic c.question

/-- The single pass over candidate records: for each candidate, flag it
(under its own group label) when its key is already in the seen set,
record its key otherwise, and score it whenever its embedding call
succeeds; warnings are tagged with the group label. -/
def candLoop (qe : List ℚ) (sim : List ℚ → List ℚ → ℚ)
    (enc : Str → Option (List ℚ)) :
    List Cand → List Str → List ScoredItem × List (Str × Str) × List Str
  | [], seen => ([], [], seen)
  | c :: rest, seen =>
    let warns : List (Str × Str) :=
      if c.key ∈ seen then [(c.folder, candWarning c)] else []
    let seen1 : List Str := if c.key ∈ seen then seen else c.key :: seen
    let sims : List ScoredItem := ((enc c.question).map (scoreItem qe sim c)).toList
    let r := candLoop qe sim enc rest seen1
    (sims ++ r.1, warns ++ r.2.1, r.2.2)

lemma candLoop_cons (qe : List ℚ) (sim : List ℚ → List ℚ → ℚ)
    (enc : Str → Option (List ℚ)) (c : Cand) (rest : List Cand) (seen : List Str) :
    candLoop qe sim enc (c :: rest) seen =
      (((enc c.question).map (scoreItem qe sim c)).toList ++
          (candLoop qe sim enc rest
            (if c.key ∈ seen then seen else c.key :: seen)).1,
        (if c.key ∈ seen then [(c.folder, candWarning c)] else []) ++
          (candLoop qe sim enc rest
            (if c.key ∈ seen then seen else c.key :: seen)).2.1,
        (candLoop qe sim enc rest
          (if c.key ∈ seen then seen else c.key :: seen)).2.2) := rfl

/-- The file loop computes the candidate pass over the extracted
candidates, with the warning tags dropped. -/
lemma processFiles_eq_candLoop (qe : List ℚ) (sim : List ℚ → List ℚ → ℚ)
    (enc : Str → Option (List ℚ)) (n : Str) (fs : List DataFile) :
    ∀ seen : List Str,
      processFiles qe sim enc n fs seen =
        ((candLoop qe sim enc (fs.filterMap (candOfFile n)) seen).1,
          (candLoop qe sim enc (fs.filterMap (candOfFile n)) seen).2.1.map Prod.snd,
          (candLoop qe sim enc (fs.filterMap (candOfFile n)) seen).2.2) := by
  induction fs with
  | nil => intro seen; simp [processFiles, candLoop]
  | cons f rest ih =>
    intro seen
    by_cases h : (pyTruthy (extract_key_data_from_file f.lines).1 &&
        pyTruthy (extract_key_data_from_file f.lines).2.1) = true
    · have hc : candOfFile n f = some
          ⟨n, f.name, (extract_key_data_from_file f.lines).1.getD [],
            (extract_key_data_from_file f.lines).2.1.getD [],
            (extract_key_data_from_file f.lines).2.2.getD []⟩ := by
        unfold candOfFile
        rw [if_pos h]
      rw [List.filterMap_cons_some hc]
      show (let e := extract_key_data_from_file f.lines
        if pyTruthy e.1 && pyTruthy e.2.1 then
          let tt := e.1.getD []
          let qt := e.2.1.getD []
          let kk := e.2.2.getD []
          let warns : List Str := if kk ∈ seen then [mkWarning f.name tt qt] else []
          let seen1 : List Str := if kk ∈ seen then seen else kk :: seen
          let sims : List ScoredItem :=
            ((enc qt).map (fun emb => ⟨qt, f.name, sim qe emb, n, tt⟩)).toList
          let r := processFiles qe sim enc n rest seen1
          (sims ++ r.1, warns ++ r.2.1, r.2.2)
        else processFiles qe sim enc n rest seen) = _
      rw [if_pos h, candLoop_cons]
      by_cases hdup : (extract_key_data_from_file f.lines).2.2.getD [] ∈ seen
      · simp only [if_pos hdup, ih, candWarning, scoreItem, List.map_append, List.map_cons,
          List.map_nil]
        rfl
      · simp only [if_neg hdup, ih, candWarning, scoreItem, List.map_append, List.map_nil,
          List.nil_append]
        rfl
    · have hc : candOfFile n f = none := by
        unfold candOfFile
        rw [if_neg h]
      rw [List.filterMap_cons_none hc]
      show (let e := extract_key_data_from_file f.lines
        if pyTruthy e.1 && pyTruthy e.2.1 then
          let tt := e.1.getD []
          let qt := e.2.1.getD []
          let kk := e.2.2.getD []
          let warns : List Str := if kk ∈ seen then [mkWarning f.name tt qt] else []
          let seen1 : List Str := if kk ∈ seen then seen else kk :: seen
          let sims : List ScoredItem :=
            ((enc qt).map (fun emb => ⟨qt, f.name, sim qe emb, n, tt⟩)).toList
          let r := processFiles qe sim enc n rest seen1
          (sims ++ r.1, warns ++ r.2.1, r.2.2)
        else processFiles qe sim enc n rest seen) = _
      rw [if_neg h]
      exact ih seen

/-- The folder function computes the candidate pass over its candidate
records. -/
lemma process_dataset_folder_eq_candLoop (qe : List ℚ)
    (sim : List ℚ → List ℚ → ℚ) (enc : Str → Option (List ℚ)) (n : Str)
    (files : List DataFile) (seen : List Str) :
    process_dataset_folder qe sim enc n files seen =
      ((candLoop qe sim enc (folderCands n files) seen).1,
        (candLoop qe sim enc (folderCands n files) seen).2.1.map Prod.snd,
        (candLoop qe sim enc (folderCands n files) seen).2.2) := by
  unfold process_dataset_folder folderCands
  exact processFiles_eq_candLoop qe sim enc n _ seen

/-- The candidate pass distributes over concatenation, threading the seen
set through the first part. -/
lemma candLoop_append (qe : List ℚ) (sim : List ℚ → List ℚ → ℚ)
    (enc : Str → Option (List ℚ)) (X Y : List Cand) :
    ∀ seen : List Str,
      candLoop qe sim enc (X ++ Y) seen =
        ((candLoop qe sim enc X seen).1 ++
            (candLoop qe sim enc Y (candLoop qe sim enc X seen).2.2).1,
          (candLoop qe sim enc X seen).2.1 ++
            (candLoop qe sim enc Y (candLoop qe sim enc X seen).2.2).2.1,
          (candLoop qe sim enc Y (candLoop qe sim enc X seen).2.2).2.2) := by
  induction X with
  | nil => intro seen; simp [candLoop]
  | cons c rest ih =>
    intro seen
    rw [List.cons_append, candLoop_cons, candLoop_cons, ih]
    simp [List.append_assoc]

/-- A key is in the seen set left by the candidate pass exactly when it
was seen before or is the key of one of the candidates. -/
lemma candLoop_seen_mem (qe : List ℚ) (sim : List ℚ → List ℚ → ℚ)
    (enc : Str → Option (List ℚ)) (X : List Cand) (k : Str) :
    ∀ seen : List Str,
      (k ∈ (candLoop qe sim enc X seen).2.2 ↔ k ∈ seen ∨ k ∈ X.map Cand.key) := by
  induction X with
  | nil => intro seen; simp [candLoop]
  | cons c rest ih =>
    intro seen
    rw [candLoop_cons]
    by_cases hdup : c.key ∈ seen
    · rw [if_pos hdup]
      rw [ih seen]
      simp only [List.map_cons, List.mem_cons]
      constructor
      · rintro (h | h)
        · exact Or.inl h
        · exact Or.inr (Or.inr h)
      · rintro (h | h | h)
        · exact Or.inl h
        · exact Or.inl (h ▸ hdup)
        · exact Or.inr h
    · rw [if_neg hdup]
      rw [ih (c.key :: seen)]
      simp only [List.mem_cons, List.map_cons]
      tauto

/-- The duplicate tracking of the candidate pass, both the tagged warning
list and the final seen-key set, does not depend on the embedding
collaborator nor on the scoring at all: it is fully determined before the
embedding call is attempted. -/
lemma candLoop_warns_indep (qe qe' : List ℚ) (sim sim' : List ℚ → List ℚ → ℚ)
    (enc enc' : Str → Option (List ℚ)) (X : List Cand) :
    ∀ seen : List Str,
      (candLoop qe sim enc X seen).2.1 = (candLoop qe' sim' enc' X seen).2.1 ∧
      (candLoop qe sim enc X seen).2.2 = (candLoop qe' sim' enc' X seen).2.2 := by
  induction X with
  | nil => intro seen; simp [candLoop]
  | cons c rest ih =>
    intro seen
    rw [candLoop_cons, candLoop_cons]
    obtain ⟨h1, h2⟩ := ih (if c.key ∈ seen then seen else c.key :: seen)
    exact ⟨by rw [h1], h2⟩

/-- The scored results of the candidate pass: exactly the candidates whose
embedding call succeeds, each scored, in input order; independent of the
seen set, hence of any duplicate status. -/
lemma candLoop_sims (qe : List ℚ) (sim : List ℚ → List ℚ → ℚ)
    (enc : Str → Option (List ℚ)) (X : List Cand) :
    ∀ seen : List Str,
      (candLoop qe sim enc X seen).1 =
        X.filterMap (fun c => (enc c.question).map (scoreItem qe sim c)) := by
  induction X with
  | nil => intro seen; simp [candLoop]
  | cons c rest ih =>
    intro seen
    rw [candLoop_cons, List.filterMap_cons]
    cases h : enc c.question with
    | none => simp [h, ih]
    | some emb => simp [h, ih]

/-- Every tagged warning of the candidate pass belongs to one of the
candidates and carries that candidate's own group label. -/
lemma candLoop_warns_mem (qe : List ℚ) (sim : List ℚ → List ℚ → ℚ)
    (enc : Str → Option (List ℚ)) (X : List Cand) (t w : Str) :
    ∀ seen : List Str,
      (t, w) ∈ (candLoop qe sim enc X seen).2.1 →
        ∃ c ∈ X, t = c.folder ∧ w = candWarning c := by
  induction X with
  | nil => intro seen h; simp [candLoop] at h
  | cons c rest ih =>
    intro seen h
    rw [candLoop_cons] at h
    rcases List.mem_append.mp h with h1 | h2
    · by_cases hdup : c.key ∈ seen
      · rw [if_pos hdup] at h1
        simp only [List.mem_singleton, Prod.mk.injEq] at h1
        exact ⟨c, List.mem_cons_self c rest, h1.1, h1.2⟩
      · rw [if_neg hdup] at h1
        simp at h1
    · obtain ⟨d, hd, hdt, hdw⟩ := ih _ h2
      exact ⟨d, List.mem_cons_of_mem c hd, hdt, hdw⟩

/-- A candidate of a folder carries that folder's name as group label. -/
lemma folderCands_folder (n : Str) (files : List DataFile) (c : Cand)
    (h : c ∈ folderCands n files) : c.folder = n := by
  obtain ⟨f, _, hf⟩ := List.mem_filterMap.mp h
  unfold candOfFile at hf
  by_cases ht : (pyTruthy (extract_key_data_from_file f.lines).1 &&
      pyTruthy (extract_key_data_from_file f.lines).2.1) = true
  · rw [if_pos ht] at hf
    cases hf
    rfl
  · rw [if_neg ht] at hf
    cases hf

lemma runFolders_cons (qe : List ℚ) (sim : List ℚ → List ℚ → ℚ)
    (enc : Str → Option (List ℚ)) (g : Str × List DataFile)
    (rest : List (Str × List DataFile)) (seen : List Str) :
    runFolders qe sim enc (g :: rest) seen =
      ((process_dataset_folder qe sim enc g.1 g.2 seen).1 ++
          (runFolders qe sim enc rest
            (process_dataset_folder qe sim enc g.1 g.2 seen).2.2).1,
        (if (process_dataset_folder qe sim enc g.1 g.2 seen).2.1.isEmpty then []
          else [(g.1, (process_dataset_folder qe sim enc g.1 g.2 seen).2.1)]) ++
          (runFolders qe sim enc rest
            (process_dataset_folder qe sim enc g.1 g.2 seen).2.2).2.1,
        (runFolders qe sim enc rest
          (process_dataset_folder qe sim enc g.1 g.2 seen).2.2).2.2) := rfl

lemma flatCands_cons (g : Str × List DataFile) (rest : List (Str × List DataFile)) :
    flatCands (g :: rest) = folderCands g.1 g.2 ++ flatCands rest := by
  simp [flatCands]

/-- The similarities and the final seen set of the main loop equal those
of the candidate pass over the flattened candidate sequence. -/
lemma runFolders_eq_candLoop (qe : List ℚ) (sim : List ℚ → List ℚ → ℚ)
    (enc : Str → Option (List ℚ)) (F : List (Str × List DataFile)) :
    ∀ seen : List Str,
      (runFolders qe sim enc F seen).1 =
          (candLoop qe sim enc (flatCands F) seen).1 ∧
        (runFolders qe sim enc F seen).2.2 =
          (candLoop qe sim enc (flatCands F) seen).2.2 := by
  induction F with
  | nil => intro seen; simp [runFolders, flatCands, candLoop]
  | cons g rest ih =>
    intro seen
    rw [runFolders_cons, process_dataset_folder_eq_candLoop, flatCands_cons,
      candLoop_append]
    dsimp only
    exact ⟨by rw [(ih _).1], by rw [(ih _).2]⟩

/-- Every tagged warning of the flattened candidate pass appears, under
its tag, in the group-to-duplicates mapping built by the main loop. -/
lemma runFolders_mapping_mem (qe : List ℚ) (sim : List ℚ → List ℚ → ℚ)
    (enc : Str → Option (List ℚ)) (F : List (Str × List DataFile)) (t w : Str) :
    ∀ seen : List Str,
      (t, w) ∈ (candLoop qe sim enc (flatCands F) seen).2.1 →
        ∃ ws, (t, ws) ∈ (runFolders qe sim enc F seen).2.1 ∧ w ∈ ws := by
  induction F with
  | nil => intro seen h; simp [flatCands, candLoop] at h
  | cons g rest ih =>
    intro seen h
    rw [flatCands_cons, candLoop_append] at h
    rw [runFolders_cons, process_dataset_folder_eq_candLoop]
    dsimp only
    rcases List.mem_append.mp h with h1 | h2
    · refine ⟨(candLoop qe sim enc (folderCands g.1 g.2) seen).2.1.map Prod.snd,
        ?_, List.mem_map_of_mem Prod.snd h1⟩
      have htag : t = g.1 := by
        obtain ⟨c, hc, hct, _⟩ := candLoop_warns_mem qe sim enc _ t w seen h1
        rw [hct]
        exact folderCands_folder g.1 g.2 c hc
      have hne : ¬((candLoop qe sim enc (folderCands g.1 g.2) seen).2.1.map
          Prod.snd).isEmpty = true := by
        simp only [List.isEmpty_eq_true, List.map_eq_nil_iff]
        intro hnil
        rw [hnil] at h1
        simp at h1
      rw [if_neg hne]
      apply List.mem_append_left
      rw [htag]
      exact List.mem_singleton.mpr rfl
    · obtain ⟨ws, hws, hw⟩ := ih _ h2
      exact ⟨ws, List.mem_append_right _ hws, hw⟩

/-- A file whose extraction is not both-truthy contributes nothing at all:
removing it from the folder leaves the similarities, the warnings and the
seen-key set of the folder run unchanged. -/
lemma process_dataset_folder_skip (qe : List ℚ) (sim : List ℚ → List ℚ → ℚ)
    (enc : Str → Option (List ℚ)) (n : Str) (X Y : List DataFile)
    (f : DataFile) (seen : List Str)
    (h : (pyTruthy (extract_key_data_from_file f.lines).1 &&
      pyTruthy (extract_key_data_from_file f.lines).2.1) = false) :
    process_dataset_folder qe sim enc n (X ++ f :: Y) seen =
      process_dataset_folder qe sim enc n (X ++ Y) seen := by
  have hcnone : candOfFile n f = none := by
    unfold candOfFile
    rw [if_neg (by rw [h]; simp)]
  have hsame : folderCands n (X ++ f :: Y) = folderCands n (X ++ Y) := by
    unfold folderCands
    rw [List.filter_append, List.filter_append, List.filter_cons]
    by_cases he : pyEndsWith f.name (str ".txt") = true
    · rw [if_pos he, List.filterMap_append, List.filterMap_append,
        List.filterMap_cons_none hcnone]
    · rw [if_neg he]
  rw [process_dataset_folder_eq_candLoop, process_dataset_folder_eq_candLoop, hsame]

/-- C8: a candidate record whose topic or question field is absent is
excluded from the pipeline entirely: the folder run with the record is the
same run as without it, so it is not scored, its key is not inserted into
the seen-key set, it is never flagged as a duplicate, and the run (a total
function) does not abort. -/
theorem claim_C8_missing_fields (qe : List ℚ) (sim : List ℚ → List ℚ → ℚ)
    (enc : Str → Option (List ℚ)) (n : Str) (X Y : List DataFile)
    (f : DataFile) (seen : List Str)
    (h : (extract_key_data_from_file f.lines).1 = none ∨
      (extract_key_data_from_file f.lines).2.1 = none) :
    process_dataset_folder qe sim enc n (X ++ f :: Y) seen =
      process_dataset_folder qe sim enc n (X ++ Y) seen := by
  apply process_dataset_folder_skip
  rcases h with h | h
  · rw [h]
    rfl
  · rw [h]
    simp [pyTruthy]

/-- C8 witness: a file with a question line but no topic line is dropped
from a concrete folder run. -/
theorem claim_C8_missing_fields_witness :
    ((extract_key_data_from_file [str "Question: hi"]).1 = none ∨
      (extract_key_data_from_file [str "Question: hi"]).2.1 = none) ∧
    process_dataset_folder [] (fun _ _ => 0) (fun _ => some []) (str "g")
        ([] ++ (⟨str "m.txt", [str "Question: hi"]⟩ : DataFile) :: []) [] =
      process_dataset_folder [] (fun _ _ => 0) (fun _ => some []) (str "g")
        ([] ++ []) [] :=
  ⟨Or.inl (by decide),
    claim_C8_missing_fields [] (fun _ _ => 0) (fun _ => some []) (str "g") [] []
      ⟨str "m.txt", [str "Question: hi"]⟩ [] (Or.inl (by decide))⟩

lemma extractLoop_t_empty : ∀ (lines : List Str) (q : Option Str),
    extractLoop lines (some []) q = (none, none, none) := by
  intro lines
  induction lines with
  | nil => intro q; rfl
  | cons line rest ih =>
    intro q
    simp only [extractLoop, Option.isNone_some, Bool.and_false, Bool.false_eq_true,
      if_false, pyTruthy, List.isEmpty_nil, Bool.not_true, Bool.false_and]
    exact ih _

lemma extractLoop_q_empty : ∀ (lines : List Str) (t : Option Str),
    extractLoop lines t (some []) = (none, none, none) := by
  intro lines
  induction lines with
  | nil => intro t; rfl
  | cons line rest ih =>
    intro t
    simp only [extractLoop, Option.isNone_some, Bool.and_false, Bool.false_eq_true,
      if_false, pyTruthy, List.isEmpty_nil, Bool.not_true]
    exact ih _

/-- If the first topic line of the file carries an empty payload, the scan
returns no data at all, whatever else the file contains. -/
lemma extractLoop_first_topic_empty :
    ∀ (lines : List Str) (q : Option Str) (l : Str),
      (lines.map pyStrip).find? (fun s => pyStartsWith s (str "Topic:")) = some l →
      pyStrip (l.drop 6) = [] →
      extractLoop lines none q = (none, none, none) := by
  intro lines
  induction lines with
  | nil => intro q l hfind _; simp at hfind
  | cons line rest ih =>
    intro q l hfind hpay
    rw [List.map_cons, List.find?_cons] at hfind
    by_cases hx : pyStartsWith (pyStrip line) (str "Topic:") = true
    · rw [hx] at hfind
      cases hfind
      simp only [extractLoop, hx, Option.isNone_none, Bool.and_true, if_true, hpay,
        pyTruthy, List.isEmpty_nil, Bool.not_true, Bool.false_and, Bool.false_eq_true,
        if_false]
      exact extractLoop_t_empty rest _
    · rw [Bool.not_eq_true] at hx
      rw [hx] at hfind
      simp only [extractLoop, hx, Bool.false_and, Bool.false_eq_true, if_false,
        pyTruthy, Bool.false_eq_true]
      exact ih _ l hfind hpay

/-- If the first question line of the file carries an empty payload, the
scan returns no data at all, whatever else the file contains. -/
lemma extractLoop_first_question_empty :
    ∀ (lines : List Str) (t : Option Str) (l : Str),
      (lines.map pyStrip).find? (fun s => pyStartsWith s (str "Question:")) = some l →
      pyStrip (l.drop 9) = [] →
      extractLoop lines t none = (none, none, none) := by
  intro lines
  induction lines with
  | nil => intro t l hfind _; simp at hfind
  | cons line rest ih =>
    intro t l hfind hpay
    rw [List.map_cons, List.find?_cons] at hfind
    by_cases hx : pyStartsWith (pyStrip line) (str "Question:") = true
    · rw [hx] at hfind
      cases hfind
      simp only [extractLoop, hx, Option.isNone_none, Bool.and_true, if_true, hpay,
        pyTruthy, List.isEmpty_nil, Bool.not_true, Bool.and_false, Bool.false_eq_true,
        if_false]
      exact extractLoop_q_empty rest _
    · rw [Bool.not_eq_true] at hx
      rw [hx] at hfind
      simp only [extractLoop, hx, Bool.false_and, Bool.false_eq_true, if_false,
        pyTruthy, Bool.and_false]
      exact ih _ l hfind hpay

/-- C10: a record whose first topic line or first question line is present
but carries an empty extracted text is treated exactly like a record with
the field absent: the extraction returns a triple of None (the code tests
the extracted strings for truthiness, and the empty string is falsy), and
the record is excluded from scoring and duplicate tracking entirely. -/
theorem claim_C10_empty_field_like_absent (qe : List ℚ)
    (sim : List ℚ → List ℚ → ℚ) (enc : Str → Option (List ℚ)) (n : Str)
    (X Y : List DataFile) (f : DataFile) (seen : List Str) (l : Str)
    (h : ((f.lines.map pyStrip).find? (fun s => pyStartsWith s (str "Topic:")) = some l ∧
        pyStrip (l.drop 6) = []) ∨
      ((f.lines.map pyStrip).find? (fun s => pyStartsWith s (str "Question:")) = some l ∧
        pyStrip (l.drop 9) = [])) :
    extract_key_data_from_file f.lines = (none, none, none) ∧
    process_dataset_folder qe sim enc n (X ++ f :: Y) seen =
      process_dataset_folder qe sim enc n (X ++ Y) seen := by
  have hext : extract_key_data_from_file f.lines = (none, none, none) := by
    unfold extract_key_data_from_file
    rcases h with ⟨hfind, hpay⟩ | ⟨hfind, hpay⟩
    · exact extractLoop_first_topic_empty f.lines none l hfind hpay
    · exact extractLoop_first_question_empty f.lines none l hfind hpay
  refine ⟨hext, process_dataset_folder_skip qe sim enc n X Y f seen ?_⟩
  rw [hext]
  rfl

/-- C10 witness: a file whose topic line is the bare label with no text is
dropped from a concrete folder run. -/
theorem claim_C10_empty_field_like_absent_witness :
    ((([str "Topic:", str "Question: x"].map pyStrip).find?
          (fun s => pyStartsWith s (str "Topic:")) = some (str "Topic:") ∧
        pyStrip ((str "Topic:").drop 6) = []) ∨
      (([str "Topic:", str "Question: x"].map pyStrip).find?
          (fun s => pyStartsWith s (str "Question:")) = some (str "Topic:") ∧
        pyStrip ((str "Topic:").drop 9) = [])) ∧
    (extract_key_data_from_file [str "Topic:", str "Question: x"] = (none, none, none) ∧
      process_dataset_folder [] (fun _ _ => 0) (fun _ => some []) (str "g")
          ([] ++ (⟨str "t.txt", [str "Topic:", str "Question: x"]⟩ : DataFile) :: []) [] =
        process_dataset_folder [] (fun _ _ => 0) (fun _ => some []) (str "g")
          ([] ++ []) []) :=
  ⟨Or.inl (by decide),
    claim_C10_empty_field_like_absent [] (fun _ _ => 0) (fun _ => some []) (str "g")
      [] [] ⟨str "t.txt", [str "Topic:", str "Question: x"]⟩ [] (str "Topic:")
      (Or.inl (by decide))⟩

/-- The two files of the C1 counterexample run: identical topic and
question, so they share one deduplication key. -/
def c1exFileA : DataFile := ⟨str "a.txt", [str "Topic: T", str "Question: Q"]⟩

def c1exFileB : DataFile := ⟨str "b.txt", [str "Topic: T", str "Question: Q"]⟩

/-- An embedding collaborator whose call fails on every input. -/
def c1exEncFail : Str → Option (List ℚ) := fun _ => none

/-- The C1 counterexample run: one folder, two candidates, every embedding
call failing. -/
def c1exRun : List ScoredItem × List (Str × List Str) × List Str :=
  runFolders [] (fun _ _ => 0) c1exEncFail [(str "g", [c1exFileA, c1exFileB])] []

/-- C1 counterexample: in a run where every embedding call fails, nothing
is scored, yet the failing first candidate's deduplication key IS inserted
into the seen-key set and the failing second candidate IS flagged as a
duplicate - the duplicate tracking happens before the embedding call, so a
candidate whose embedding fails is not excluded from it, contradicting the
claim. -/
theorem claim_C1_counterexample :
    c1exRun.1 = [] ∧
    c1exRun.2.1 = [(str "g", [mkWarning (str "b.txt") (str "T") (str "Q")])] ∧
    mkKey (str "T") (str "Q") ∈ c1exRun.2.2 := by
  refine ⟨by decide, by decide, by decide⟩

/-- C1 amended: when the embedding call for a candidate fails, that
candidate is excluded from the scored results only: the similarities of a
folder run are exactly the truthy candidates whose embedding call
succeeds, each scored, in input order, while the duplicate tracking (the
warning list and the seen-key set) is identical for any two embedding
collaborators, in particular whether calls fail or not - the key was
already inserted, or the duplicate already flagged, before the embedding
call.  All remaining candidates are still processed and scored. -/
theorem claim_C1_amended (qe qe2 : List ℚ) (sim sim2 : List ℚ → List ℚ → ℚ)
    (enc enc2 : Str → Option (List ℚ)) (n : Str) (files : List DataFile)
    (seen : List Str) :
    (process_dataset_folder qe sim enc n files seen).1 =
      (folderCands n files).filterMap
        (fun c => (enc c.question).map (scoreItem qe sim c)) ∧
    (process_dataset_folder qe sim enc n files seen).2.1 =
      (process_dataset_folder qe2 sim2 enc2 n files seen).2.1 ∧
    (process_dataset_folder qe sim enc n files seen).2.2 =
      (process_dataset_folder qe2 sim2 enc2 n files seen).2.2 := by
  rw [process_dataset_folder_eq_candLoop, process_dataset_folder_eq_candLoop]
  dsimp only
  refine ⟨candLoop_sims qe sim enc _ seen, ?_, ?_⟩
  · rw [(candLoop_warns_indep qe qe2 sim sim2 enc enc2 _ seen).1]
  · exact (candLoop_warns_indep qe qe2 sim sim2 enc enc2 _ seen).2

lemma scoreLE_trans : ∀ a b c : ScoredItem, scoreLE a b → scoreLE b c → scoreLE a c := by
  intro a b c hab hbc
  simp only [scoreLE, decide_eq_true_eq] at hab hbc ⊢
  exact le_trans hbc hab

lemma scoreLE_total : ∀ a b : ScoredItem, scoreLE a b || scoreLE b a := by
  intro a b
  simp only [scoreLE, Bool.or_eq_true, decide_eq_true_eq]
  exact le_total b.score a.score

/-- The complete group-to-duplicates mapping, as the spec describes it:
for each group in order, the full list of warnings of the candidates of
that group whose key was already in the accumulated seen-key set when they
were processed (groups without warnings omitted), with no truncation
anywhere. -/
def dupWarningsFrom (qe : List ℚ) (sim : List ℚ → List ℚ → ℚ)
    (enc : Str → Option (List ℚ)) :
    List (Str × List DataFile) → List Str → List (Str × List Str)
  | [], _ => []
  | g :: rest, seen =>
    (if ((candLoop qe sim enc (folderCands g.1 g.2) seen).2.1.map Prod.snd).isEmpty
      then []
      else [(g.1, (candLoop qe sim enc (folderCands g.1 g.2) seen).2.1.map Prod.snd)]) ++
    dupWarningsFrom qe sim enc rest (candLoop qe sim enc (folderCands g.1 g.2) seen).2.2

/-- The complete mapping of a whole run, starting from the empty seen set. -/
def fullDupMapping (qe : List ℚ) (sim : List ℚ → List ℚ → ℚ)
    (enc : Str → Option (List ℚ)) (folders : List (Str × List DataFile)) :
    List (Str × List Str) :=
  dupWarningsFrom qe sim enc folders []

/-- The mapping built by the main loop is the complete mapping. -/
lemma runFolders_warns_eq (qe : List ℚ) (sim : List ℚ → List ℚ → ℚ)
    (enc : Str → Option (List ℚ)) (F : List (Str × List DataFile)) :
    ∀ seen : List Str,
      (runFolders qe sim enc F seen).2.1 = dupWarningsFrom qe sim enc F seen := by
  induction F with
  | nil => intro seen; rfl
  | cons g rest ih =>
    intro seen
    rw [runFolders_cons, process_dataset_folder_eq_candLoop]
    dsimp only
    rw [ih]
    rfl

/-- C6: the ranked output is the stable descending sort of the scored
candidates truncated to the first 10 entries: the sort is a permutation of
the input, scores are non-increasing along it, candidates of any equal
score keep their original relative input order (the filter at each score
value is unchanged), the ranked list is its 10-element front, and the
group-to-duplicates mapping is returned complete, not truncated. -/
theorem claim_C6_ranking (l : List ScoredItem) (s : ℚ) (qe : List ℚ)
    (sim : List ℚ → List ℚ → ℚ) (enc : Str → Option (List ℚ))
    (folders : List (Str × List DataFile)) :
    List.Perm (sortDesc l) l ∧
    (sortDesc l).Pairwise (fun a b => b.score ≤ a.score) ∧
    (sortDesc l).filter (fun x => decide (x.score = s)) =
      l.filter (fun x => decide (x.score = s)) ∧
    top_results l = (sortDesc l).take 10 ∧
    (runPipeline qe sim enc folders).1 =
      top_results (runFolders qe sim enc folders []).1 ∧
    (runPipeline qe sim enc folders).2 = fullDupMapping qe sim enc folders := by
  refine ⟨List.mergeSort_perm l scoreLE, ?_, ?_, rfl, rfl, ?_⟩
  · exact (List.sorted_mergeSort scoreLE_trans scoreLE_total l).imp
      (fun h => by simpa [scoreLE] using h)
  · have hall : ∀ x ∈ l.filter (fun x => decide (x.score = s)),
        (fun x => decide (x.score = s)) x = true := fun x hx =>
      (List.mem_filter.mp hx).2
    have hpw : (l.filter (fun x => decide (x.score = s))).Pairwise (scoreLE · ·) := by
      apply List.pairwise_of_forall_mem_list
      intro a ha b hb
      have ha2 : a.score = s := of_decide_eq_true (List.mem_filter.mp ha).2
      have hb2 : b.score = s := of_decide_eq_true (List.mem_filter.mp hb).2
      simp [scoreLE, ha2, hb2]
    have hsubl : List.Sublist (l.filter (fun x => decide (x.score = s))) (sortDesc l) :=
      List.sublist_mergeSort scoreLE_trans scoreLE_total hpw (List.filter_sublist l)
    have hsub2 : List.Sublist (l.filter (fun x => decide (x.score = s)))
        ((sortDesc l).filter (fun x => decide (x.score = s))) := by
      have h2 := List.Sublist.filter (fun x => decide (x.score = s)) hsubl
      rwa [List.filter_eq_self.mpr hall] at h2
    have hlen : (l.filter (fun x => decide (x.score = s))).length =
        ((sortDesc l).filter (fun x => decide (x.score = s))).length :=
      (((List.mergeSort_perm l scoreLE).filter _).length_eq).symm
    exact (hsub2.eq_of_length hlen).symm
  · show (runFolders qe sim enc folders []).2.1 = _
    rw [runFolders_warns_eq]
    rfl

/-- C7: one seen-key set is shared across all groups.  If two candidates
c1 and c2 of a run (c2 later than c1, possibly in a different group)
share a deduplication key that no candidate before c1 carries, then the
warning list produced by the run contains exactly the entry of c2 at the
position of c2, tagged with c2's own group label, and no entry for c1;
the warning of c2 appears in the returned mapping under c2's own group;
and when the embedding calls of both succeed, both candidates are scored
into the similarities list and remain eligible for the ranked output
(they are in the sorted list the top-10 truncation is taken from). -/
theorem claim_C7_shared_seen_set (qe : List ℚ) (sim : List ℚ → List ℚ → ℚ)
    (enc : Str → Option (List ℚ)) (folders : List (Str × List DataFile))
    (A B C : List Cand) (c1 c2 : Cand) (e1 e2 : List ℚ)
    (hsplit : flatCands folders = A ++ c1 :: (B ++ c2 :: C))
    (hkey : c2.key = c1.key)
    (hfresh : c1.key ∉ A.map Cand.key)
    (henc1 : enc c1.question = some e1)
    (henc2 : enc c2.question = some e2) :
    scoreItem qe sim c1 e1 ∈ (runFolders qe sim enc folders []).1 ∧
    scoreItem qe sim c2 e2 ∈ (runFolders qe sim enc folders []).1 ∧
    scoreItem qe sim c1 e1 ∈ sortDesc (runFolders qe sim enc folders []).1 ∧
    scoreItem qe sim c2 e2 ∈ sortDesc (runFolders qe sim enc folders []).1 ∧
    (∃ ws, (c2.folder, ws) ∈ (runPipeline qe sim enc folders).2 ∧
      candWarning c2 ∈ ws) ∧
    (candLoop qe sim enc (flatCands folders) []).2.1 =
      (candLoop qe sim enc A []).2.1 ++
        (candLoop qe sim enc B (c1.key :: (candLoop qe sim enc A []).2.2)).2.1 ++
        (c2.folder, candWarning c2) ::
          (candLoop qe sim enc C
            ((candLoop qe sim enc B
              (c1.key :: (candLoop qe sim enc A []).2.2)).2.2)).2.1 := by
  have hc1mem : c1 ∈ flatCands folders := by
    rw [hsplit]
    exact List.mem_append_right _ (List.mem_cons_self _ _)
  have hc2mem : c2 ∈ flatCands folders := by
    rw [hsplit]
    refine List.mem_append_right _ (List.mem_cons_of_mem _ ?_)
    exact List.mem_append_right _ (List.mem_cons_self _ _)
  have hsims : (runFolders qe sim enc folders []).1 =
      (flatCands folders).filterMap
        (fun c => (enc c.question).map (scoreItem qe sim c)) := by
    rw [(runFolders_eq_candLoop qe sim enc folders []).1, candLoop_sims]
  have hm1 : scoreItem qe sim c1 e1 ∈ (runFolders qe sim enc folders []).1 := by
    rw [hsims]
    exact List.mem_filterMap.mpr ⟨c1, hc1mem, by rw [henc1]; rfl⟩
  have hm2 : scoreItem qe sim c2 e2 ∈ (runFolders qe sim enc folders []).1 := by
    rw [hsims]
    exact List.mem_filterMap.mpr ⟨c2, hc2mem, by rw [henc2]; rfl⟩
  have hA1 : c1.key ∉ (candLoop qe sim enc A []).2.2 := by
    rw [candLoop_seen_mem]
    rintro (h | h)
    · simp at h
    · exact hfresh h
  have hB : c2.key ∈ (candLoop qe sim enc B
      (c1.key :: (candLoop qe sim enc A []).2.2)).2.2 := by
    rw [candLoop_seen_mem]
    left
    rw [hkey]
    exact List.mem_cons_self _ _
  have hwarns : (candLoop qe sim enc (flatCands folders) []).2.1 =
      (candLoop qe sim enc A []).2.1 ++
        (candLoop qe sim enc B (c1.key :: (candLoop qe sim enc A []).2.2)).2.1 ++
        (c2.folder, candWarning c2) ::
          (candLoop qe sim enc C
            ((candLoop qe sim enc B
              (c1.key :: (candLoop qe sim enc A []).2.2)).2.2)).2.1 := by
    rw [hsplit, candLoop_append]
    rw [candLoop_cons]
    rw [if_neg hA1, if_neg hA1]
    rw [candLoop_append]
    rw [candLoop_cons]
    rw [if_pos hB, if_pos hB]
    dsimp only
    rw [List.append_assoc]
    rfl
  have hwmem : (c2.folder, candWarning c2) ∈
      (candLoop qe sim enc (flatCands folders) []).2.1 := by
    rw [hwarns]
    exact List.mem_append_right _ (List.mem_cons_self _ _)
  obtain ⟨ws, hws, hw⟩ := runFolders_mapping_mem qe sim enc folders
    c2.folder (candWarning c2) [] hwmem
  exact ⟨hm1, hm2, List.mem_mergeSort.mpr hm1, List.mem_mergeSort.mpr hm2,
    ⟨ws, hws, hw⟩, hwarns⟩

/-- The concrete two-folder run of the C7 witness: the same topic and
question appear once in each of two different groups. -/
def c7exFolders : List (Str × List DataFile) :=
  [(str "g1", [⟨str "a.txt", [str "Topic: T", str "Question: Q"]⟩]),
    (str "g2", [⟨str "b.txt", [str "Topic: T", str "Question: Q"]⟩])]

def c7exC1 : Cand :=
  ⟨str "g1", str "a.txt", str "T", str "Q", mkKey (str "T") (str "Q")⟩

def c7exC2 : Cand :=
  ⟨str "g2", str "b.txt", str "T", str "Q", mkKey (str "T") (str "Q")⟩

/-- An embedding collaborator that succeeds on every input. -/
def c7exEnc : Str → Option (List ℚ) := fun _ => some [1]

/-- C7 witness: in the concrete two-folder run, both same-key candidates
are scored and the second one is flagged in the mapping under its own
group. -/
theorem claim_C7_shared_seen_set_witness :
    (flatCands c7exFolders = [] ++ c7exC1 :: ([] ++ c7exC2 :: []) ∧
      c7exC2.key = c7exC1.key ∧
      c7exC1.key ∉ ([] : List Cand).map Cand.key ∧
      c7exEnc c7exC1.question = some [1] ∧
      c7exEnc c7exC2.question = some [1]) ∧
    scoreItem [] (fun _ _ => 0) c7exC1 [1] ∈
      (runFolders [] (fun _ _ => 0) c7exEnc c7exFolders []).1 ∧
    scoreItem [] (fun _ _ => 0) c7exC2 [1] ∈
      (runFolders [] (fun _ _ => 0) c7exEnc c7exFolders []).1 ∧
    (∃ ws, (c7exC2.folder, ws) ∈ (runPipeline [] (fun _ _ => 0) c7exEnc c7exFolders).2 ∧
      candWarning c7exC2 ∈ ws) := by
  have h := claim_C7_shared_seen_set [] (fun _ _ => 0) c7exEnc c7exFolders
    [] [] [] c7exC1 c7exC2 [1] [1] (by decide) (by decide) (by decide) rfl rfl
  exact ⟨⟨by decide, by decide, by decide, rfl, rfl⟩, h.1, h.2.1, h.2.2.2.2.1⟩

end CosVec
